import Mathlib

/-!
Verification of the tab-media detection core of the `media-control-extension`
repository, shallowly embedded in Lean 4.

JavaScript numbers are modelled as rationals (`ℚ`); the special value `NaN`
is modelled by `none` in the type `JSNum := Option ℚ`, with the usual JS
semantics that every comparison involving `NaN` is false and arithmetic
propagates `NaN`.  DOM access is modelled by explicit environment records
(attribute maps, containment predicates) passed to the embedded functions.
-/

namespace MediaControl

/-- A JavaScript number: `some q` is the real value `q`, `none` is `NaN`.
(Infinities do not occur in the fragment of the source modelled here.) -/
abbrev JSNum := Option ℚ

/-- Binary arithmetic on JS numbers: `NaN` propagates. -/
def jsBin (f : ℚ → ℚ → ℚ) : JSNum → JSNum → JSNum
  | some a, some b => some (f a b)
  | _, _ => none

/-- JS subtraction. -/
def jsSub (a b : JSNum) : JSNum := jsBin (fun x y => x - y) a b

/-- JS multiplication by a plain (non-NaN) number. -/
def jsMulQ (a : JSNum) (m : ℚ) : JSNum :=
  match a with
  | some x => some (x * m)
  | none => none

/-- JS `Math.abs`. -/
def jsAbs : JSNum → JSNum
  | some a => some |a|
  | none => none

/-- JS `<=` comparison: false whenever an operand is `NaN`. -/
def jsLe (a b : JSNum) : Bool :=
  match a, b with
  | some x, some y => decide (x ≤ y)
  | _, _ => false

/-- JS `>=` comparison: false whenever an operand is `NaN`. -/
def jsGe (a b : JSNum) : Bool :=
  match a, b with
  | some x, some y => decide (y ≤ x)
  | _, _ => false

/-- The natural number denoted by a list of decimal digit characters. -/
def natOfDigits (cs : List Char) : ℕ :=
  cs.foldl (fun n c => 10 * n + (c.toNat - 48)) 0

/-- The fractional value denoted by the digits after a decimal point. -/
def fracOfDigits : List Char → ℚ
  | [] => 0
  | c :: cs => (((c.toNat - 48 : ℕ) : ℚ) + fracOfDigits cs) / 10

/-- Ten to the natural power `n` as a rational, by plain recursion. -/
def tenPow : ℕ → ℚ
  | 0 => 1
  | n + 1 => 10 * tenPow n

/-- Ten to an integer exponent `e`. -/
def powTen : ℤ → ℚ
  | .ofNat n => tenPow n
  | .negSucc n => 1 / tenPow (n + 1)

/-- Consume an optional leading sign; returns whether it was negative. -/
def parseSign : List Char → Bool × List Char
  | '-' :: rest => (true, rest)
  | '+' :: rest => (false, rest)
  | cs => (false, cs)

/-- Parse a trailing exponent part (`e`/`E`, sign, digits).  As with the
JavaScript builtin, an incomplete exponent suffix is ignored. -/
def parseExponent (cs : List Char) : ℤ :=
  match cs with
  | 'e' :: rest | 'E' :: rest =>
    let sr := parseSign rest
    let ds := sr.2.takeWhile Char.isDigit
    if ds.isEmpty then 0
    else if sr.1 then -(natOfDigits ds : ℤ) else (natOfDigits ds : ℤ)
  | _ => 0

/-- Whether a character is JS whitespace (the kinds relevant here). -/
def isJsSpace (c : Char) : Bool :=
  c = ' ' || c = '\t' || c = '\n' || c = '\r'

/-- Model of the JavaScript builtin `parseFloat` on decimal literals:
skips leading whitespace, consumes an optional sign, integer digits, an
optional fraction and an optional exponent, and returns `NaN` (`none`)
when no digits could be consumed.  (`Infinity` literals are not modelled;
they do not occur as attribute values in this program's domain.) -/
def parseFloat (s : String) : JSNum :=
  let cs := s.toList.dropWhile isJsSpace
  let sr := parseSign cs
  let intDigits := sr.2.takeWhile Char.isDigit
  let cs2 := sr.2.dropWhile Char.isDigit
  let fr : List Char × List Char :=
    match cs2 with
    | '.' :: rest => (rest.takeWhile Char.isDigit, rest.dropWhile Char.isDigit)
    | _ => ([], cs2)
  if intDigits.isEmpty ∧ fr.1.isEmpty then none
  else
    let mant : ℚ := (natOfDigits intDigits : ℚ) + fracOfDigits fr.1
    let v : ℚ := mant * powTen (parseExponent fr.2)
    some (if sr.1 then -v else v)

/-! ## Progress elements (`src/lib/browser-media/progress-element.ts`) -/

/-- The `ProgressElementPrecision` enum from `progress-element.ts`:
`Seconds = 1`, `Milliseconds = 1000`. -/
inductive ProgressElementPrecision where
  | Seconds
  | Milliseconds
deriving DecidableEq, Repr

/-- The numeric value of a precision enum member. -/
def ProgressElementPrecision.toNumber : ProgressElementPrecision → ℚ
  | .Seconds => 1
  | .Milliseconds => 1000

/-- DOM environment: element identity is a natural number; the environment
tells which ids are `HTMLElement`s contained in the document and what the
current value of each attribute is. -/
structure Dom where
  isHTMLElement : ℕ → Bool
  contains : ℕ → Bool
  getAttribute : ℕ → String → Option String

/-- The `ProgressElement` class from `progress-element.ts`: a wrapped DOM
element (identified by `element`) with the names of its three observed
attributes and its precision configuration.  `updateInterval` is the
extra field the playback-position observer stores on the object. -/
structure ProgressElement where
  element : ℕ
  minAttribute : String
  maxAttribute : String
  valueAttribute : String
  valuePrecision : ProgressElementPrecision
  targetPrecision : ProgressElementPrecision
  updateInterval : Option JSNum
deriving DecidableEq, Repr

/-- The getter `multiplier(): number`, returning `this._targetPrecision / this._valuePrecision`. -/
def ProgressElement.multiplier (pe : ProgressElement) : ℚ :=
  pe.targetPrecision.toNumber / pe.valuePrecision.toNumber

/-- Method `#getFloat(name)` from `progress-element.ts`:
`const value = this._element.getAttribute(name); return value ? parseFloat(value) * this.multiplier : null;`
A missing attribute or the (falsy) empty string yields `null` (`none`);
otherwise the parsed value (possibly `NaN`) times the multiplier. -/
def ProgressElement.getFloat (dom : Dom) (pe : ProgressElement) (name : String) :
    Option JSNum :=
  match dom.getAttribute pe.element name with
  | none => none
  | some v => if v = "" then none else some (jsMulQ (parseFloat v) pe.multiplier)

/-- The `get min()` accessor. -/
def ProgressElement.minVal (dom : Dom) (pe : ProgressElement) : Option JSNum :=
  pe.getFloat dom pe.minAttribute

/-- The `get max()` accessor. -/
def ProgressElement.maxVal (dom : Dom) (pe : ProgressElement) : Option JSNum :=
  pe.getFloat dom pe.maxAttribute

/-- The `get value()` accessor. -/
def ProgressElement.value (dom : Dom) (pe : ProgressElement) : Option JSNum :=
  pe.getFloat dom pe.valueAttribute

/-! ## Playback state (`playback-state.ts`, unnamed part 015) -/

/-- The `PlaybackState` class: an immutable playback position sample.
`position` and `duration` are in milliseconds, `positionTimestamp` is a
wall-clock epoch timestamp in milliseconds, `playing` the playing flag. -/
structure PlaybackState where
  position : ℚ
  positionTimestamp : ℚ
  duration : Option ℚ
  playing : Bool
deriving DecidableEq, Repr

/-- The `PlaybackState` constructor, with its validation:
`if (positionTimestamp < 0) throw; if (duration && duration <= 0) throw`.
Note the JS truthiness test `duration &&`: a present duration of `0` is
falsy and therefore not checked against `<= 0`. -/
def PlaybackState.make (position : ℚ) (duration : Option ℚ) (playing : Bool)
    (positionTimestamp : ℚ) : Except String PlaybackState :=
  if positionTimestamp < 0 then
    .error "timestamp may not be negative"
  else if (match duration with
           | some d => !decide (d = 0) && decide (d ≤ 0)
           | none => false : Bool) then
    .error "duration may not be zero or negative"
  else
    .ok ⟨position, positionTimestamp, duration, playing⟩

/-- The non-throwing body of `livePosition(when)` (everything after the
`when < 0` guard):  for paused media the stored position; for playing
media `position + (when - positionTimestamp)` clamped below at `0` by
`Math.max` and, when the duration is truthy (present and nonzero),
clamped above at the duration by `Math.min`. -/
def PlaybackState.livePositionVal (s : PlaybackState) (whenq : ℚ) : ℚ :=
  if s.playing = false then
    s.position
  else
    let timeDelta := whenq - s.positionTimestamp
    let thenPosition := max 0 (s.position + timeDelta)
    match s.duration with
    | some d => if d = 0 then thenPosition else min d thenPosition
    | none => thenPosition

/-- Method `livePosition(when)` from `playback-state.ts`, including its
`when < 0` throw. -/
def PlaybackState.livePosition (s : PlaybackState) (whenq : ℚ) :
    Except String ℚ :=
  if whenq < 0 then .error "timestamp may not be negative"
  else .ok (s.livePositionVal whenq)

/-- Method `equals(other, epsilon)` from `playback-state.ts`.  Both live positions
are read at the same instant `now` (the source calls `livePosition()` with
the current `Date.now()` on both sides). -/
def PlaybackState.equalsAt (s other : PlaybackState) (epsilon now : ℚ) : Bool :=
  decide (s.playing = other.playing)
    && decide (s.duration = other.duration)
    && decide (|s.livePositionVal now - other.livePositionVal now| < epsilon)

/-! ## Tab media state (`state.ts` and `constants.ts`, unnamed part 013) -/

/-- The `PlaybackStateSource` enum. -/
inductive PlaybackStateSource where
  | MediaElement
  | ProgressElementMilliseconds
  | ProgressElementSeconds
  | Estimated
deriving DecidableEq, Repr

/-- Constant `Constants.PROGRESS_MILLIS_EPSILON` from `constants.ts`. -/
def PROGRESS_MILLIS_EPSILON : ℚ := 25

/-- Constant `Constants.PROGRESS_SECS_EPSILON` from `constants.ts`. -/
def PROGRESS_SECS_EPSILON : ℚ := 250

/-- Table `Constants.EPSILONS_FOR_PLAYBACK_STATE_SOURCE` from `constants.ts`. -/
def EPSILONS_FOR_PLAYBACK_STATE_SOURCE : PlaybackStateSource → ℚ
  | .MediaElement => 100
  | .ProgressElementMilliseconds => 250
  | .ProgressElementSeconds => 1000
  | .Estimated => 250

/-- Class `TabMediaPlaybackState`: a `PlaybackState` tagged with its source. -/
structure TabMediaPlaybackState extends PlaybackState where
  source : PlaybackStateSource
deriving DecidableEq, Repr

/-- One entry of the `MediaMetadata.artwork` list (deep-copied fields
`src`, `sizes`, `type`). -/
structure MediaImage where
  src : String
  sizes : Option String
  mimeType : Option String
deriving DecidableEq, Repr

/-- The deep-copied `MediaMetadata` value stored in a `TabMediaState`. -/
structure MediaMetadata where
  title : String
  artist : String
  album : String
  artwork : List MediaImage
deriving DecidableEq, Repr

/-- The `TabMediaStateChange` enum. -/
inductive TabMediaStateChange where
  | StartedPlaying
  | PlaybackStateChanged
  | TrackChanged
  | Nothing
deriving DecidableEq, Repr

/-- The `TabMediaState` snapshot: deep-copied metadata (or `null`) plus the
tagged playback state. -/
structure TabMediaState where
  mediaMetadata : Option MediaMetadata
  playbackState : TabMediaPlaybackState
deriving DecidableEq, Repr

/-- Method `determineChanges(previousState)` from `state.ts`.  `previousState`
being `null` or `undefined` is modelled by `none`; the structural
`deepEqual(…, { strict: true })` on the deep-copied metadata records is
decidable equality; the epsilon is the minimum of the two sources'
tolerance constants; `now` is the instant at which `equals` reads both
live positions. -/
def TabMediaState.determineChanges (s : TabMediaState)
    (previousState : Option TabMediaState) (now : ℚ) : TabMediaStateChange :=
  match previousState with
  | none => .StartedPlaying
  | some prev =>
    if ¬(prev.mediaMetadata = s.mediaMetadata) then
      .TrackChanged
    else if ¬(prev.playbackState.toPlaybackState.equalsAt
        s.playbackState.toPlaybackState
        (min (EPSILONS_FOR_PLAYBACK_STATE_SOURCE s.playbackState.source)
             (EPSILONS_FOR_PLAYBACK_STATE_SOURCE prev.playbackState.source))
        now = true) then
      .PlaybackStateChanged
    else
      .Nothing

/-- The wire `metadata` record emitted by `TabMediaState.serialize`
(fields `title`, optional `artist`/`album`/`duration`). -/
structure WireMetadata where
  title : String
  artist : Option String
  album : Option String
  duration : Option ℚ
deriving DecidableEq, Repr

/-- The `metadata` field of `TabMediaState.serialize` from `state.ts`:
with metadata present, `artist`/`album` are emitted only when non-empty
and `duration` only when the playback state's duration is truthy
(divided by 1000); with `null` metadata, a record containing only the
document title, or nothing when that is empty too.
(The remaining fields of the serialized record — source, playback state,
resource links, images — are outside the scope of the claims and are not
modelled here.) -/
def TabMediaState.serializeMetadata (s : TabMediaState)
    (documentTitle : String) : Option WireMetadata :=
  match s.mediaMetadata with
  | some md =>
    some { title := md.title
           artist := if md.artist.length > 0 then some md.artist else none
           album := if md.album.length > 0 then some md.album else none
           duration :=
             match s.playbackState.duration with
             | some d => if d = 0 then none else some (d / 1000)
             | none => none }
  | none =>
    if documentTitle.length > 0 then
      some { title := documentTitle, artist := none, album := none,
             duration := none }
    else
      none

/-! ## Playback-position progress observer (`src/lib/tab-media/observer.ts`) -/

/-- A DOM `MutationRecord`, restricted to the fields the observer reads:
the mutated attribute's name (or `null`) and the target element's id. -/
structure MutationRecord where
  attributeName : Option String
  target : ℕ
deriving DecidableEq, Repr

/-- The per-element `ProgressElementState` record of the observer. -/
structure ProgressElementState where
  progressElement : ProgressElement
  lastValue : Option JSNum
  lastValueTimestamp : Option ℚ
deriving DecidableEq, Repr

/-- The mutable state of `PlaybackPositionProgressElementObserver` relevant
to mutation processing: the per-element map (keyed by element id) and the
locked-in element, if any.  (The mutation-stopped timeout is a timer side
effect and is not part of this state.) -/
structure ObserverState where
  progressElementState : List (ℕ × ProgressElementState)
  currentPlaybackPositionProgressElement : Option ProgressElement
deriving DecidableEq, Repr

/-- Update the per-element map entry for key `k` (mirrors mutating the
`ProgressElementState` object stored under `k` in the JS `Map`). -/
def setElementState (m : List (ℕ × ProgressElementState)) (k : ℕ)
    (v : ProgressElementState) : List (ℕ × ProgressElementState) :=
  m.map (fun p => if p.1 = k then (k, v) else p)

/-- One callback notification forwarded to the registered mutation
callbacks: the (locked-in) progress element and the mutation record. -/
abbrev Emission := ProgressElement × MutationRecord

/-- The body of the `for (const mutation of mutations)` loop of
`PlaybackPositionProgressElementObserver.#onMutated` in `observer.ts`,
as a pure transition: given the DOM at callback time, the value of
`Date.now()` (`now`), the observer state and one mutation record, it
returns the new observer state and the notifications emitted for this
record.  Every `continue` of the source is a plain return here. -/
def processMutation (dom : Dom) (now : ℚ) (st : ObserverState)
    (m : MutationRecord) : ObserverState × List Emission :=
  match m.attributeName with
  | none => (st, [])
  | some attrName =>
    if !dom.isHTMLElement m.target then (st, [])
    else if !dom.contains m.target then (st, [])
    else
      match st.progressElementState.lookup m.target with
      | none => (st, [])
      | some state =>
        if m.target ≠ state.progressElement.element then (st, [])
        else
          match st.currentPlaybackPositionProgressElement with
          | some cur =>
            -- Locked in: forward the mutation when it targets the
            -- locked-in element (the mutation-stopped timeout update is a
            -- timer side effect, not modelled).
            if cur.element = m.target then (st, [(cur, m)]) else (st, [])
          | none =>
            if attrName ≠ state.progressElement.valueAttribute then (st, [])
            else
              match dom.getAttribute m.target attrName with
              | none => (st, [])
              | some valueString =>
                let realNewValue := parseFloat valueString
                match state.lastValue, state.lastValueTimestamp with
                | some lastValue, some lastValueTimestamp =>
                  if jsLe realNewValue lastValue then
                    -- The new value must be larger than the old value.
                    ({ st with progressElementState :=
                        (setElementState st.progressElementState m.target
                          { state with lastValue := some realNewValue,
                                       lastValueTimestamp := some now }) }, [])
                  else
                    let timeDeltaMillis : ℚ := now - lastValueTimestamp
                    let positionDelta := jsSub realNewValue lastValue
                    let isMillis := jsGe positionDelta (some (timeDeltaMillis / 2))
                    let pe :=
                      if isMillis then state.progressElement
                      else { state.progressElement with
                               valuePrecision := .Seconds }
                    let newValue2 :=
                      if isMillis then realNewValue
                      else jsMulQ realNewValue pe.multiplier
                    let lastValue2 :=
                      if isMillis then lastValue
                      else jsMulQ lastValue pe.multiplier
                    let positionDelta2 :=
                      if isMillis then positionDelta
                      else jsSub newValue2 lastValue2
                    let epsilon : ℚ :=
                      if isMillis then PROGRESS_MILLIS_EPSILON
                      else PROGRESS_SECS_EPSILON
                    let updateIntervalMillis :=
                      match pe.valuePrecision with
                      | .Seconds =>
                        jsMulQ positionDelta2
                          ProgressElementPrecision.Milliseconds.toNumber
                      | .Milliseconds => positionDelta2
                    let pe2 := { pe with
                                   updateInterval := some updateIntervalMillis }
                    let difference :=
                      jsAbs (jsSub (some timeDeltaMillis) positionDelta2)
                    if jsLe difference (some epsilon) then
                      ({ progressElementState :=
                           (setElementState st.progressElementState m.target
                             { progressElement := pe2, lastValue := none,
                               lastValueTimestamp := none }),
                         currentPlaybackPositionProgressElement := some pe2 },
                       [])
                    else
                      ({ st with progressElementState :=
                           (setElementState st.progressElementState m.target
                             { progressElement := pe2,
                               lastValue := some realNewValue,
                               lastValueTimestamp := some now }) }, [])
                | _, _ =>
                  ({ st with progressElementState :=
                      (setElementState st.progressElementState m.target
                        { state with lastValue := some realNewValue,
                                     lastValueTimestamp := some now }) }, [])

/-- Method `#onMutated` over a whole mutation batch: fold `processMutation` over
the records in platform delivery order, accumulating emissions. -/
def onMutated (dom : Dom) (now : ℚ) (st : ObserverState)
    (ms : List MutationRecord) : ObserverState × List Emission :=
  ms.foldl
    (fun acc m =>
      let r := processMutation dom now acc.1 m
      (r.1, acc.2 ++ r.2))
    (st, [])

/-- A sequence of `#onMutated` invocations, each with its own `Date.now()`
value, DOM snapshot and mutation batch, processed in order. -/
def runBatches (st : ObserverState)
    (batches : List (ℚ × Dom × List MutationRecord)) :
    ObserverState × List Emission :=
  batches.foldl
    (fun acc b =>
      let r := onMutated b.2.1 b.1 acc.1 b.2.2
      (r.1, acc.2 ++ r.2))
    (st, [])

/-! ## Resource-link resolver (`src/lib/tab-media/resource-links.ts`) -/

/-- Interface `ResourceInfo`: the metadata text the resolver matches against. -/
structure ResourceInfo where
  title : String
  artist : String
  album : String
deriving DecidableEq, Repr

/-- The `ResourceType` enum. -/
inductive ResourceType where
  | Track
  | Album
  | Artist
deriving DecidableEq, Repr

/-- A compiled regular expression, modelled by its `test` predicate on
path names (the only operation the resolver uses). -/
structure RegExpr where
  test : String → Bool

/-- Interface `ResourceLinkPatterns`: optional per-site patterns for the three
resource kinds (`undefined` is `none`; a `RegExp` object is truthy). -/
structure ResourceLinkPatterns where
  track : Option RegExpr
  album : Option RegExpr
  artist : Option RegExpr

/-- An anchor element, as the resolver consumes it: identity, visible
text and resolved `href`. -/
structure AnchorLink where
  id : ℕ
  innerText : String
  href : String
deriving DecidableEq, Repr

/-- One element of the list returned by `findPairsWithClosestAncestor`:
two anchors, their depths below their common DOM ancestor, and the
min/max of those depths. -/
structure ClosestAnchorPair where
  firstNode : AnchorLink
  firstDepth : ℕ
  secondNode : AnchorLink
  secondDepth : ℕ
  minDepth : ℕ
  maxDepth : ℕ
deriving DecidableEq, Repr

/-- The DOM-dependent primitives `findBestMatchingResourceLinks` builds
on: `findResourceLinks pattern text caseInsensitive innerTextIncludes`
(the document roots are folded into the environment) and
`findPairsWithClosestAncestor largestSet smallestSet`.  Both walk the
live DOM in the source and are supplied as an environment here. -/
structure ResolverEnv where
  findResourceLinks : RegExpr → String → Bool → Bool → List AnchorLink
  findPairsWithClosestAncestor :
    List AnchorLink → List AnchorLink → List ClosestAnchorPair

/-- The `Map<ResourceType, HTMLLinkElement[]>` built in the first phase,
modelled by one optional list per key (`none` means the key is absent). -/
structure TypedLinks where
  track : Option (List AnchorLink)
  album : Option (List AnchorLink)
  artist : Option (List AnchorLink)
deriving Repr

/-- Test `linkElements.size === 0`. -/
def TypedLinks.isEmpty (t : TypedLinks) : Bool :=
  t.track.isNone && t.album.isNone && t.artist.isNone

/-- A `Map<string, string>` with insertion order, as an association list. -/
abbrev StringMap := List (String × String)

/-- Operation `map.has(key)` for the string maps. -/
def StringMap.hasKey (m : StringMap) (k : String) : Bool :=
  (m.lookup k).isSome

/-- Operation `map.set(key, value)` for a key that may or may not be present; the
resolver only ever inserts when the key is absent, so appending preserves
the JS insertion-order semantics. -/
def StringMap.insert (m : StringMap) (k v : String) : StringMap :=
  m ++ [(k, v)]

/-- The result map `Map<ResourceType, Map<string, string>>`, again with
one optional field per key. -/
structure ResourceLinksResult where
  track : Option StringMap
  album : Option StringMap
  artist : Option StringMap
deriving Repr

/-- The empty result (`new Map()`). -/
def ResourceLinksResult.empty : ResourceLinksResult := ⟨none, none, none⟩

/-- Operation `urls.get(t)` on the result under construction. -/
def ResourceLinksResult.get (r : ResourceLinksResult) (t : ResourceType) :
    Option StringMap :=
  match t with
  | .Track => r.track
  | .Album => r.album
  | .Artist => r.artist

/-- Operation `urls.set(t, m)` on the result under construction. -/
def ResourceLinksResult.set (r : ResourceLinksResult) (t : ResourceType)
    (m : StringMap) : ResourceLinksResult :=
  match t with
  | .Track => { r with track := some m }
  | .Album => { r with album := some m }
  | .Artist => { r with artist := some m }

/-- Add one `(innerText → href)` entry for kind `t` the way the pair loop
does: create the map when the kind is absent, otherwise insert only when
the text is not yet a key. -/
def addUrlEntry (r : ResourceLinksResult) (t : ResourceType)
    (text href : String) : ResourceLinksResult :=
  match r.get t with
  | none => r.set t [(text, href)]
  | some m =>
    if m.hasKey text then r else r.set t (m.insert text href)

/-- The comparator passed to `ancestorPairs.sort`: by `minDepth`, then by
the spread `maxDepth - minDepth` (as a non-strict order usable for a
stable merge sort, matching the stable JS `Array.prototype.sort`). -/
def ancestorPairGroupLE
    (a b : List ClosestAnchorPair × ResourceType × ResourceType) : Bool :=
  match a.1, b.1 with
  | pa :: _, pb :: _ =>
    decide (pa.minDepth < pb.minDepth)
      || (decide (pa.minDepth = pb.minDepth)
          && decide (pa.maxDepth - pa.minDepth ≤ pb.maxDepth - pb.minDepth))
  | _, _ => true

/-- Model of JavaScript `String.prototype.includes`: whether `sub` occurs
as a contiguous substring of `s`. -/
def jsIncludes (s sub : String) : Bool :=
  s.toList.tails.any (fun t => sub.toList.isPrefixOf t)

/-- Function `findBestMatchingResourceLinks(metadata, linkPatterns)` from
`resource-links.ts`, with the DOM supplied through `env`.  Mirrors the
source phase by phase: the empty-patterns early return, candidate link
collection with the album/artist fallbacks, pairwise closest-ancestor
matching for the three kind pairs, the closeness sort, map
materialization from the sorted pairs and the raw-candidate fallback. -/
def findBestMatchingResourceLinks (env : ResolverEnv)
    (metadata : ResourceInfo) (linkPatterns : ResourceLinkPatterns) :
    ResourceLinksResult :=
  if linkPatterns.track.isNone && linkPatterns.album.isNone
      && linkPatterns.artist.isNone then
    ResourceLinksResult.empty
  else
    -- Phase 1: collect candidate link elements per resource kind.
    let trackLinks : Option (List AnchorLink) :=
      match linkPatterns.track with
      | none => none
      | some p =>
        let ls := env.findResourceLinks p metadata.title false false
        if ls.length = 0 then none else some ls
    let albumLinks : Option (List AnchorLink) :=
      match linkPatterns.album with
      | none => none
      | some p =>
        let ls := env.findResourceLinks p metadata.album false false
        let ls := if ls.length = 0 then
            -- Sometimes the track title links to the album instead.
            env.findResourceLinks p metadata.title false false
          else ls
        let ls := if ls.length = 0 then
            -- Sometimes the album name is in all uppercase.
            env.findResourceLinks p metadata.album true false
          else ls
        if ls.length = 0 then none else some ls
    let artistLinks : Option (List AnchorLink) :=
      match linkPatterns.artist with
      | none => none
      | some p =>
        let ls := env.findResourceLinks p metadata.artist true true
        if ls.length = 0 then none else some ls
    let linkElements : TypedLinks := ⟨trackLinks, albumLinks, artistLinks⟩
    if linkElements.isEmpty then
      ResourceLinksResult.empty
    else
      -- Phase 2: closest-ancestor pairs for each pair of present kinds.
      let ancestorPairs :
          List (List ClosestAnchorPair × ResourceType × ResourceType) :=
        (match linkElements.album, linkElements.artist with
         | some albums, some artists =>
           let result := env.findPairsWithClosestAncestor artists albums
           if result.length > 0 then [(result, .Artist, .Album)] else []
         | _, _ => []) ++
        (match linkElements.album, linkElements.track with
         | some albums, some tracks =>
           let result := env.findPairsWithClosestAncestor albums tracks
           if result.length > 0 then [(result, .Album, .Track)] else []
         | _, _ => []) ++
        (match linkElements.artist, linkElements.track with
         | some artists, some tracks =>
           let result := env.findPairsWithClosestAncestor artists tracks
           if result.length > 0 then [(result, .Artist, .Track)] else []
         | _, _ => [])
      let sortedPairs := ancestorPairs.mergeSort ancestorPairGroupLE
      -- Phase 3: materialize the text → URL maps from the sorted pairs.
      let urls : ResourceLinksResult :=
        sortedPairs.foldl
          (fun urls pair =>
            pair.1.foldl
              (fun urls element =>
                let urls := addUrlEntry urls pair.2.1
                  element.firstNode.innerText element.firstNode.href
                addUrlEntry urls pair.2.2
                  element.secondNode.innerText element.secondNode.href)
              urls)
          ResourceLinksResult.empty
      -- Phase 4: raw-candidate fallback for kinds without a pair entry.
      let urls :=
        [ResourceType.Track, ResourceType.Album, ResourceType.Artist].foldl
          (fun urls resourceType =>
            let candidates :=
              match resourceType with
              | .Track => linkElements.track
              | .Album => linkElements.album
              | .Artist => linkElements.artist
            match urls.get resourceType, candidates with
            | none, some ls =>
              ls.foldl
                (fun urls resourceUrl =>
                  let text :=
                    match resourceType with
                    | .Track => metadata.title
                    | .Album => metadata.album
                    | .Artist => metadata.artist
                  let innerText := resourceUrl.innerText.trim
                  if !(jsIncludes text innerText) then urls
                  else
                    match urls.get resourceType with
                    | none =>
                      urls.set resourceType [(innerText, resourceUrl.href)]
                    | some m =>
                      if m.hasKey innerText then urls
                      else urls.set resourceType (m.insert innerText resourceUrl.href))
                urls
            | _, _ => urls)
          urls
      urls

/-- A sequence of single-record `#onMutated` invocations, each with its
own `Date.now()` value and DOM snapshot, processed in order (resulting
state only). -/
def runMutationSeq : ObserverState → List (ℚ × Dom × MutationRecord) → ObserverState
  | st, [] => st
  | st, x :: rest => runMutationSeq (processMutation x.2.1 x.1 st x.2.2).1 rest

/-- The premise of the non-increasing-sequence property: every record of
the input sequence targets the observed element's value attribute, passes
the DOM guards, parses to a plain number, and that number is less than or
equal to the last value recorded so far (which each step re-baselines). -/
def NonIncreasingRun (eid : ℕ) (attr : String) (lv : ℚ) :
    List (ℚ × Dom × MutationRecord) → Prop
  | [] => True
  | x :: rest =>
      x.2.2.target = eid ∧ x.2.2.attributeName = some attr ∧
      x.2.1.isHTMLElement eid = true ∧ x.2.1.contains eid = true ∧
      ∃ s v, x.2.1.getAttribute eid attr = some s ∧ parseFloat s = some v ∧
        v ≤ lv ∧ NonIncreasingRun eid attr v rest

/-! ## Theorems -/

/-- C5 (code bug): the `PlaybackState` constructor accepts a present
duration of `0` without throwing, because `duration && duration <= 0`
is false for the falsy value `0` — although its own error message says
"duration may not be zero or negative" and the documented invariant
requires a present duration to be strictly positive.  The constructed
state has `duration = some 0`, violating the invariant. -/
theorem playbackState_make_accepts_zero_duration :
    PlaybackState.make 0 (some 0) false 0 =
      Except.ok { position := 0, positionTimestamp := 0,
                  duration := some 0, playing := false } ∧
    ¬(0 : ℚ) < 0 := by
  constructor
  · simp [PlaybackState.make]
  · exact lt_irrefl 0

/-- C4 counterexample: through the constructor's falsy-zero hole (see the
C5 analysis) a playing state with a present duration of `0` is
constructible, and its live position exceeds that duration, refuting the
claim that the result never exceeds a present duration. -/
theorem livePosition_zero_duration_counterexample :
    PlaybackState.make 5 (some 0) true 0 =
      Except.ok { position := 5, positionTimestamp := 0,
                  duration := some 0, playing := true } ∧
    ({ position := 5, positionTimestamp := 0, duration := some 0,
       playing := true } : PlaybackState).livePosition 10 = .ok 15 ∧
    ¬((15 : ℚ) ≤ 0) := by
  refine ⟨by simp [PlaybackState.make], ?_, by norm_num⟩
  simp [PlaybackState.livePosition, PlaybackState.livePositionVal]
  norm_num

/-- C4 as amended: `livePosition` returns the stored position unchanged
for every non-negative query time when not playing; when playing it is
monotone non-decreasing in the query time; and when a present duration is
strictly positive (a present duration of `0` is falsy and imposes no
clamp) the result never exceeds it. -/
theorem livePosition_spec (s : PlaybackState) (now now1 now2 : ℚ)
    (h0 : 0 ≤ now) (h1 : 0 ≤ now1) (h12 : now1 ≤ now2) :
    (s.playing = false → s.livePosition now = .ok s.position) ∧
    (s.playing = true → ∀ p1 p2, s.livePosition now1 = .ok p1 →
      s.livePosition now2 = .ok p2 → p1 ≤ p2) ∧
    (s.playing = true → ∀ d p, s.duration = some d → 0 < d →
      s.livePosition now = .ok p → p ≤ d) := by
  have hok : ∀ w : ℚ, 0 ≤ w → s.livePosition w = .ok (s.livePositionVal w) := by
    intro w hw
    simp [PlaybackState.livePosition, not_lt.mpr hw]
  refine ⟨fun hp => ?_, fun hp p1 p2 hp1 hp2 => ?_, fun hp d p hd hdpos hpv => ?_⟩
  · rw [hok now h0]
    simp [PlaybackState.livePositionVal, hp]
  · rw [hok now1 h1] at hp1
    rw [hok now2 (le_trans h1 h12)] at hp2
    cases hp1; cases hp2
    unfold PlaybackState.livePositionVal
    simp only [hp]
    have hmax : max 0 (s.position + (now1 - s.positionTimestamp)) ≤
        max 0 (s.position + (now2 - s.positionTimestamp)) := by
      apply max_le_max le_rfl
      linarith
    cases hdur : s.duration with
    | none => simpa using hmax
    | some d =>
      by_cases hdz : d = 0
      · simpa [hdz] using hmax
      · simp only [hdz, if_false]
        exact min_le_min le_rfl hmax
  · rw [hok now h0] at hpv
    cases hpv
    unfold PlaybackState.livePositionVal
    simp only [hp, hd]
    have hdz : ¬d = 0 := ne_of_gt hdpos
    simp [hdz]

/-- Closed witness for `livePosition_spec` at a concrete paused state and a
concrete playing state with duration 10. -/
theorem livePosition_spec_witness :
    (⟨5, 0, some 10, false⟩ : PlaybackState).livePosition 3 = .ok 5 ∧
    ∀ p : ℚ, (⟨5, 0, some 10, true⟩ : PlaybackState).livePosition 20 = .ok p →
      p ≤ 10 := by
  constructor
  · exact (livePosition_spec ⟨5, 0, some 10, false⟩ 3 3 3 (by norm_num)
      (by norm_num) le_rfl).1 rfl
  · intro p hp
    exact (livePosition_spec ⟨5, 0, some 10, true⟩ 20 20 20 (by norm_num)
      (by norm_num) le_rfl).2.2 rfl 10 p rfl (by norm_num) hp

/-- C9: for every `PlaybackState` obtained from the constructor with
`playing = true`, `livePosition` at any non-negative query time returns a
non-negative position, also when the duration is absent: the `Math.max`
clamp at `0` applies unconditionally, before any duration clamp. -/
theorem livePosition_nonneg (position : ℚ) (duration : Option ℚ)
    (ts now : ℚ) (s : PlaybackState)
    (hmk : PlaybackState.make position duration true ts = .ok s)
    (hnow : 0 ≤ now) :
    s.livePosition now = .ok (s.livePositionVal now) ∧
      0 ≤ s.livePositionVal now := by
  have hok : s.livePosition now = .ok (s.livePositionVal now) := by
    simp [PlaybackState.livePosition, not_lt.mpr hnow]
  refine ⟨hok, ?_⟩
  unfold PlaybackState.make at hmk
  split at hmk
  · exact absurd hmk (by simp)
  · split at hmk
    · exact absurd hmk (by simp)
    · rename_i hts hdur
      have hs : s = ⟨position, ts, duration, true⟩ := by
        cases hmk; rfl
      subst hs
      unfold PlaybackState.livePositionVal
      simp only
      cases hd : duration with
      | none => simp [le_max_left]
      | some d =>
        by_cases hdz : d = 0
        · simp [hdz, le_max_left]
        · have hdnn : 0 ≤ d := by
            rw [hd] at hdur
            simp [hdz] at hdur
            linarith
          simp [hdz, le_min_iff, le_max_left]
          linarith

/-- Closed witness for `livePosition_nonneg`: a playing state with no
duration, queried before its position timestamp, still yields a
non-negative live position. -/
theorem livePosition_nonneg_witness :
    (⟨5, 1000, none, true⟩ : PlaybackState).livePosition 0 =
      .ok ((⟨5, 1000, none, true⟩ : PlaybackState).livePositionVal 0) ∧
    0 ≤ (⟨5, 1000, none, true⟩ : PlaybackState).livePositionVal 0 :=
  livePosition_nonneg 5 none 1000 0 ⟨5, 1000, none, true⟩
    (by simp [PlaybackState.make]) le_rfl

/-- C3: `determineChanges` returns exactly one of the four change values,
decided in order: `StartedPlaying` at a missing previous state;
`TrackChanged` at structurally unequal metadata; `PlaybackStateChanged`
when the playback states are not `equals`-equal under the epsilon
`min` of the two sources' tolerance constants; else `Nothing`. -/
theorem determineChanges_spec (s : TabMediaState)
    (prev : Option TabMediaState) (now : ℚ) :
    (s.determineChanges prev now = .StartedPlaying ↔ prev = none) ∧
    (s.determineChanges prev now = .TrackChanged ↔
      ∃ p, prev = some p ∧ p.mediaMetadata ≠ s.mediaMetadata) ∧
    (s.determineChanges prev now = .PlaybackStateChanged ↔
      ∃ p, prev = some p ∧ p.mediaMetadata = s.mediaMetadata ∧
        p.playbackState.toPlaybackState.equalsAt s.playbackState.toPlaybackState
          (min (EPSILONS_FOR_PLAYBACK_STATE_SOURCE s.playbackState.source)
               (EPSILONS_FOR_PLAYBACK_STATE_SOURCE p.playbackState.source))
          now = false) ∧
    (s.determineChanges prev now = .Nothing ↔
      ∃ p, prev = some p ∧ p.mediaMetadata = s.mediaMetadata ∧
        p.playbackState.toPlaybackState.equalsAt s.playbackState.toPlaybackState
          (min (EPSILONS_FOR_PLAYBACK_STATE_SOURCE s.playbackState.source)
               (EPSILONS_FOR_PLAYBACK_STATE_SOURCE p.playbackState.source))
          now = true) := by
  cases prev with
  | none => simp [TabMediaState.determineChanges]
  | some p =>
    by_cases hm : p.mediaMetadata = s.mediaMetadata
    · by_cases he : p.playbackState.toPlaybackState.equalsAt
          s.playbackState.toPlaybackState
          (min (EPSILONS_FOR_PLAYBACK_STATE_SOURCE s.playbackState.source)
               (EPSILONS_FOR_PLAYBACK_STATE_SOURCE p.playbackState.source))
          now = true
      · simp [TabMediaState.determineChanges, hm, he]
      · simp only [Bool.not_eq_true] at he
        simp [TabMediaState.determineChanges, hm, he]
    · simp [TabMediaState.determineChanges, hm]

/-- C10: the wire metadata of `serialize` keeps the title but omits
`artist`/`album` whenever the corresponding metadata string is empty;
with `null` metadata it falls back to a record holding only the document
title, or is absent entirely when the document title is empty too. -/
theorem serializeMetadata_spec (s : TabMediaState) (documentTitle : String) :
    (∀ md, s.mediaMetadata = some md →
      ∃ w, s.serializeMetadata documentTitle = some w ∧
        w.title = md.title ∧
        (md.artist.length = 0 → w.artist = none) ∧
        (md.artist.length > 0 → w.artist = some md.artist) ∧
        (md.album.length = 0 → w.album = none) ∧
        (md.album.length > 0 → w.album = some md.album)) ∧
    (s.mediaMetadata = none → documentTitle.length > 0 →
      s.serializeMetadata documentTitle =
        some { title := documentTitle, artist := none, album := none,
               duration := none }) ∧
    (s.mediaMetadata = none → documentTitle.length = 0 →
      s.serializeMetadata documentTitle = none) := by
  refine ⟨fun md hmd => ?_, fun hmd ht => ?_, fun hmd ht => ?_⟩
  · refine ⟨{ title := md.title,
              artist := if md.artist.length > 0 then some md.artist else none,
              album := if md.album.length > 0 then some md.album else none,
              duration := match s.playbackState.duration with
                          | some d => if d = 0 then none else some (d / 1000)
                          | none => none },
            by simp [TabMediaState.serializeMetadata, hmd], rfl, ?_, ?_, ?_, ?_⟩
    · intro h; simp [h]
    · intro h; simp [h]
    · intro h; simp [h]
    · intro h; simp [h]
  · simp [TabMediaState.serializeMetadata, hmd, ht]
  · simp [TabMediaState.serializeMetadata, hmd, ht]

/-- Closed witness for `serializeMetadata_spec`: a metadata record with an
empty artist and non-empty album keeps title and album but omits the
artist, and a `null`-metadata state with empty document title serializes
no metadata at all. -/
theorem serializeMetadata_spec_witness :
    (∃ w, TabMediaState.serializeMetadata
        ⟨some ⟨"Song", "", "Album", []⟩,
         ⟨⟨0, 0, none, true⟩, .Estimated⟩⟩ "" = some w ∧
      w.title = "Song" ∧ w.artist = none ∧ w.album = some "Album") ∧
    TabMediaState.serializeMetadata
        ⟨none, ⟨⟨0, 0, none, true⟩, .Estimated⟩⟩ "" = none := by
  constructor
  · obtain ⟨w, hw, ht, hae, has, hle, hls⟩ :=
      (serializeMetadata_spec
        ⟨some ⟨"Song", "", "Album", []⟩, ⟨⟨0, 0, none, true⟩, .Estimated⟩⟩ "").1
        ⟨"Song", "", "Album", []⟩ rfl
    exact ⟨w, hw, ht, hae rfl, hls (by decide)⟩
  · exact (serializeMetadata_spec
      ⟨none, ⟨⟨0, 0, none, true⟩, .Estimated⟩⟩ "").2.2 rfl rfl

/-- C6 counterexample: a present but unparsable `value` attribute (`"abc"`)
does not make the accessor return `null`; the accessor returns the number
`NaN * multiplier = NaN` (modelled `some none`), refuting the claim that
the accessors return `null` whenever the attribute is unparsable. -/
theorem progressElement_unparsable_not_null :
    parseFloat "abc" = none ∧
    (Dom.mk (fun _ => true) (fun _ => true)
        (fun i n => if i = 0 ∧ n = "value" then some "abc" else none)).getAttribute
        0 "value" = some "abc" ∧
    ProgressElement.value
      (Dom.mk (fun _ => true) (fun _ => true)
        (fun i n => if i = 0 ∧ n = "value" then some "abc" else none))
      ⟨0, "min", "max", "value", .Milliseconds, .Milliseconds, none⟩
      = some none := by
  refine ⟨by decide, by simp, ?_⟩
  simp [ProgressElement.value, ProgressElement.getFloat,
    show parseFloat "abc" = none from by decide, jsMulQ]

/-- C6 amended: each accessor reads its configured attribute and returns
`null` exactly when the attribute is absent or the empty string; for a
present non-empty attribute it returns `parseFloat(value) * multiplier`,
which is `NaN` — not `null` — when the value is unparsable.  The
accessors are pure functions of the DOM. -/
theorem progressElement_accessors_spec (dom : Dom) (pe : ProgressElement) :
    pe.minVal dom = pe.getFloat dom pe.minAttribute ∧
    pe.maxVal dom = pe.getFloat dom pe.maxAttribute ∧
    pe.value dom = pe.getFloat dom pe.valueAttribute ∧
    ∀ name,
      (pe.getFloat dom name = none ↔
        dom.getAttribute pe.element name = none ∨
        dom.getAttribute pe.element name = some "") ∧
      (∀ v, dom.getAttribute pe.element name = some v → ¬v = "" →
        pe.getFloat dom name = some (jsMulQ (parseFloat v) pe.multiplier)) := by
  refine ⟨rfl, rfl, rfl, fun name => ⟨?_, fun v hv hne => ?_⟩⟩
  · unfold ProgressElement.getFloat
    cases h : dom.getAttribute pe.element name with
    | none => simp
    | some v =>
      by_cases hv : v = ""
      · simp [hv]
      · simp [hv]
  · unfold ProgressElement.getFloat
    rw [hv]
    simp [hne]

/-- Closed witness for `progressElement_accessors_spec`: on a concrete DOM
with `value="1.5"` and no `min` attribute, `value()` is `1500` (seconds
rescaled to the millisecond target) and `min()` is `null`. -/
theorem progressElement_accessors_spec_witness :
    ProgressElement.minVal
      (Dom.mk (fun _ => true) (fun _ => true)
        (fun i n => if i = 0 ∧ n = "value" then some "1.5" else none))
      ⟨0, "min", "max", "value", .Seconds, .Milliseconds, none⟩ = none ∧
    ProgressElement.value
      (Dom.mk (fun _ => true) (fun _ => true)
        (fun i n => if i = 0 ∧ n = "value" then some "1.5" else none))
      ⟨0, "min", "max", "value", .Seconds, .Milliseconds, none⟩
      = some (some 1500) := by
  have hpf : parseFloat "1.5" = some (3 / 2) := by
    have h : natOfDigits ['1'] = 1 := by decide
    have hf : fracOfDigits ['5'] = 1 / 2 := by
      norm_num [fracOfDigits, show ('5'.toNat - 48 : ℕ) = 5 from by decide]
    simp +decide [parseFloat, parseSign]
    norm_num [h, hf, parseExponent, powTen, tenPow]
  obtain ⟨hmin, hmax, hval, hname⟩ := progressElement_accessors_spec
    (Dom.mk (fun _ => true) (fun _ => true)
      (fun i n => if i = 0 ∧ n = "value" then some "1.5" else none))
    ⟨0, "min", "max", "value", .Seconds, .Milliseconds, none⟩
  constructor
  · rw [hmin]
    exact ((hname "min").1).mpr (Or.inl (by simp))
  · rw [hval, (hname "value").2 "1.5" (by simp) (by decide)]
    norm_num [jsMulQ, hpf, ProgressElement.multiplier,
      ProgressElementPrecision.toNumber]

/-- C7: with no track, album or artist pattern configured, the resolver
returns the empty map, whatever the page contents (the DOM environment)
and metadata are. -/
theorem findBestMatchingResourceLinks_no_patterns (env : ResolverEnv)
    (metadata : ResourceInfo) (linkPatterns : ResourceLinkPatterns)
    (ht : linkPatterns.track = none) (ha : linkPatterns.album = none)
    (hr : linkPatterns.artist = none) :
    findBestMatchingResourceLinks env metadata linkPatterns =
      ResourceLinksResult.empty := by
  unfold findBestMatchingResourceLinks
  rw [ht, ha, hr]
  simp

/-- Closed witness for `findBestMatchingResourceLinks_no_patterns` on a
concrete environment whose `findResourceLinks` always returns an anchor. -/
theorem findBestMatchingResourceLinks_no_patterns_witness :
    findBestMatchingResourceLinks
      ⟨fun _ _ _ _ => [⟨0, "Song", "https://x.example/track/1"⟩],
       fun _ _ => []⟩
      ⟨"Song", "Artist", "Album"⟩ ⟨none, none, none⟩ =
      ResourceLinksResult.empty :=
  findBestMatchingResourceLinks_no_patterns
    ⟨fun _ _ _ _ => [⟨0, "Song", "https://x.example/track/1"⟩],
     fun _ _ => []⟩
    ⟨"Song", "Artist", "Album"⟩ ⟨none, none, none⟩ rfl rfl rfl

/-- Helper for C8: with a locked-in element, processing one mutation
record leaves the observer state unchanged and emits notifications only
for the locked-in element, only when the record targets it. -/
theorem processMutation_locked (dom : Dom) (now : ℚ) (st : ObserverState)
    (m : MutationRecord) (cur : ProgressElement)
    (h : st.currentPlaybackPositionProgressElement = some cur) :
    (processMutation dom now st m).1 = st ∧
    ∀ e ∈ (processMutation dom now st m).2,
      e.1 = cur ∧ e.2.target = cur.element := by
  unfold processMutation
  rw [h]
  cases m.attributeName with
  | none => simp
  | some attr =>
    simp only
    split
    · simp
    · split
      · simp
      · split
        · simp
        · split
          · simp
          · split
            · rename_i hc
              simp_all
            · simp

/-- Helper for C8: the emission-accumulating fold inside `onMutated`,
for a locked observer state. -/
theorem onMutatedFold_locked (dom : Dom) (now : ℚ) (cur : ProgressElement)
    (ms : List MutationRecord) :
    ∀ (st : ObserverState) (acc : List Emission),
      st.currentPlaybackPositionProgressElement = some cur →
      (∀ e ∈ acc, e.1 = cur ∧ e.2.target = cur.element) →
      (ms.foldl
        (fun acc m =>
          let r := processMutation dom now acc.1 m
          (r.1, acc.2 ++ r.2)) (st, acc)).1 = st ∧
      ∀ e ∈ (ms.foldl
        (fun acc m =>
          let r := processMutation dom now acc.1 m
          (r.1, acc.2 ++ r.2)) (st, acc)).2,
        e.1 = cur ∧ e.2.target = cur.element := by
  induction ms with
  | nil =>
    intro st acc h hacc
    exact ⟨rfl, hacc⟩
  | cons m ms ih =>
    intro st acc h hacc
    obtain ⟨hst, hout⟩ := processMutation_locked dom now st m cur h
    simp only [List.foldl_cons]
    rw [hst]
    refine ih st (acc ++ (processMutation dom now st m).2) h ?_
    intro e he
    rcases List.mem_append.mp he with h1 | h2
    · exact hacc e h1
    · exact hout e h2

/-- Helper for C8: `onMutated` on a whole batch, for a locked state. -/
theorem onMutated_locked (dom : Dom) (now : ℚ) (st : ObserverState)
    (ms : List MutationRecord) (cur : ProgressElement)
    (h : st.currentPlaybackPositionProgressElement = some cur) :
    (onMutated dom now st ms).1 = st ∧
    ∀ e ∈ (onMutated dom now st ms).2,
      e.1 = cur ∧ e.2.target = cur.element := by
  unfold onMutated
  exact onMutatedFold_locked dom now cur ms st [] h (by simp)

/-- C8: once a progress element is locked in, every notification forwarded
over any sequence of later mutation batches concerns exactly the
locked-in element (records targeting other observed elements are skipped
without emitting), and the whole observer state — in particular the
locked-in element — is unchanged by mutation processing. -/
theorem observer_locked_forwards_only_locked (st : ObserverState)
    (cur : ProgressElement)
    (batches : List (ℚ × Dom × List MutationRecord))
    (h : st.currentPlaybackPositionProgressElement = some cur) :
    (runBatches st batches).1 = st ∧
    (runBatches st batches).1.currentPlaybackPositionProgressElement
      = some cur ∧
    ∀ e ∈ (runBatches st batches).2,
      e.1 = cur ∧ e.2.target = cur.element := by
  suffices hs : ∀ (st0 : ObserverState) (acc : List Emission),
      st0.currentPlaybackPositionProgressElement = some cur →
      (∀ e ∈ acc, e.1 = cur ∧ e.2.target = cur.element) →
      (batches.foldl
        (fun acc b =>
          let r := onMutated b.2.1 b.1 acc.1 b.2.2
          (r.1, acc.2 ++ r.2)) (st0, acc)).1 = st0 ∧
      ∀ e ∈ (batches.foldl
        (fun acc b =>
          let r := onMutated b.2.1 b.1 acc.1 b.2.2
          (r.1, acc.2 ++ r.2)) (st0, acc)).2,
        e.1 = cur ∧ e.2.target = cur.element by
    obtain ⟨h1, h2⟩ := hs st [] h (by simp)
    exact ⟨h1, by rw [show (runBatches st batches).1 = st from h1]; exact h, h2⟩
  induction batches with
  | nil =>
    intro st0 acc h0 hacc
    exact ⟨rfl, hacc⟩
  | cons b bs ih =>
    intro st0 acc h0 hacc
    obtain ⟨hst, hout⟩ := onMutated_locked b.2.1 b.1 st0 b.2.2 cur h0
    simp only [List.foldl_cons]
    rw [hst]
    refine ih st0 (acc ++ (onMutated b.2.1 b.1 st0 b.2.2).2) h0 ?_
    intro e he
    rcases List.mem_append.mp he with h1 | h2
    · exact hacc e h1
    · exact hout e h2

/-- Closed witness for `observer_locked_forwards_only_locked` on a
concrete locked state and a batch containing mutations of the locked-in
element and of an unrelated element. -/
theorem observer_locked_forwards_only_locked_witness :
    (runBatches
      ⟨[(1, ⟨⟨1, "min", "max", "value", .Milliseconds, .Milliseconds, none⟩,
          none, none⟩)],
       some ⟨1, "min", "max", "value", .Milliseconds, .Milliseconds, none⟩⟩
      [(0, Dom.mk (fun _ => true) (fun _ => true) (fun _ _ => none),
        [⟨some "value", 1⟩, ⟨some "value", 2⟩])]).1 =
      ⟨[(1, ⟨⟨1, "min", "max", "value", .Milliseconds, .Milliseconds, none⟩,
          none, none⟩)],
       some ⟨1, "min", "max", "value", .Milliseconds, .Milliseconds, none⟩⟩ ∧
    ∀ e ∈ (runBatches
      ⟨[(1, ⟨⟨1, "min", "max", "value", .Milliseconds, .Milliseconds, none⟩,
          none, none⟩)],
       some ⟨1, "min", "max", "value", .Milliseconds, .Milliseconds, none⟩⟩
      [(0, Dom.mk (fun _ => true) (fun _ => true) (fun _ _ => none),
        [⟨some "value", 1⟩, ⟨some "value", 2⟩])]).2,
      e.1 = ⟨1, "min", "max", "value", .Milliseconds, .Milliseconds, none⟩ ∧
      e.2.target = 1 :=
  ⟨(observer_locked_forwards_only_locked _ _ _ rfl).1,
   (observer_locked_forwards_only_locked _ _ _ rfl).2.2⟩

/-- Helper: updating the entry of a present key makes `lookup` find the
new value. -/
theorem lookup_setElementState (m : List (ℕ × ProgressElementState)) (k : ℕ)
    (v : ProgressElementState) (h : (m.lookup k).isSome = true) :
    (setElementState m k v).lookup k = some v := by
  induction m with
  | nil => simp [List.lookup] at h
  | cons p ps ih =>
    obtain ⟨a, b⟩ := p
    by_cases hk : a = k
    · subst hk
      rw [show setElementState ((a, b) :: ps) a v
          = (a, v) :: setElementState ps a v from by simp [setElementState]]
      simp [List.lookup]
    · have hbeq : (k == a) = false := by
        simp only [beq_eq_false_iff_ne, ne_eq]
        exact Ne.symm hk
      simp only [setElementState, List.map_cons, if_neg hk] at *
      rw [List.lookup] at h ⊢
      simp only [hbeq] at h ⊢
      exact ih h

/-- Helper for C2: a mutation whose parsed value does not exceed the
recorded last value only re-baselines the element's entry: no lock-in,
no emission, nothing else changed. -/
theorem processMutation_nonincreasing_step (dom : Dom) (now : ℚ)
    (st : ObserverState) (m : MutationRecord) (pst : ProgressElementState)
    (lv t : ℚ) (s : String) (v : ℚ)
    (hcur : st.currentPlaybackPositionProgressElement = none)
    (hlook : st.progressElementState.lookup m.target = some pst)
    (hel : pst.progressElement.element = m.target)
    (hattr : m.attributeName = some pst.progressElement.valueAttribute)
    (hH : dom.isHTMLElement m.target = true)
    (hC : dom.contains m.target = true)
    (hget : dom.getAttribute m.target pst.progressElement.valueAttribute
      = some s)
    (hparse : parseFloat s = some v)
    (hlast : pst.lastValue = some (some lv))
    (hts : pst.lastValueTimestamp = some t)
    (hle : v ≤ lv) :
    processMutation dom now st m =
      ({ st with progressElementState :=
          (setElementState st.progressElementState m.target
            { pst with lastValue := some (some v),
                       lastValueTimestamp := some now }) }, []) := by
  unfold processMutation
  rw [hattr]
  simp only [hH, hC, hlook, hcur, hget, hparse, hlast, hts, hel,
    Bool.not_true, Bool.false_eq_true, if_false, ne_eq, not_true_eq_false,
    if_neg, jsLe]
  simp [hle]

/-- Helper: `runMutationSeq` over an appended list. -/
theorem runMutationSeq_append (a b : List (ℚ × Dom × MutationRecord)) :
    ∀ st : ObserverState,
      runMutationSeq st (a ++ b) = runMutationSeq (runMutationSeq st a) b := by
  induction a with
  | nil => intro st; rfl
  | cons x xs ih =>
    intro st
    simp only [List.cons_append, runMutationSeq]
    exact ih _

/-- Helper for C2: processing any prefix of a non-increasing run keeps
the observer unlocked and keeps an entry for the element whose
`progressElement` is unchanged and whose recorded last value heads the
remaining run. -/
theorem nonincrRun_reach (eid : ℕ) (attr : String) :
    ∀ (l1 l2 : List (ℚ × Dom × MutationRecord)) (st : ObserverState)
      (pst : ProgressElementState) (lv : ℚ),
      st.currentPlaybackPositionProgressElement = none →
      st.progressElementState.lookup eid = some pst →
      pst.progressElement.element = eid →
      pst.progressElement.valueAttribute = attr →
      pst.lastValue = some (some lv) →
      pst.lastValueTimestamp.isSome = true →
      NonIncreasingRun eid attr lv (l1 ++ l2) →
      (runMutationSeq st l1).currentPlaybackPositionProgressElement = none ∧
      ∃ pst' lv',
        (runMutationSeq st l1).progressElementState.lookup eid = some pst' ∧
        pst'.progressElement = pst.progressElement ∧
        pst'.lastValue = some (some lv') ∧
        pst'.lastValueTimestamp.isSome = true ∧
        NonIncreasingRun eid attr lv' l2 := by
  intro l1
  induction l1 with
  | nil =>
    intro l2 st pst lv hcur hlook hel hva hlast hts hrun
    exact ⟨hcur, pst, lv, hlook, rfl, hlast, hts, hrun⟩
  | cons x xs ih =>
    intro l2 st pst lv hcur hlook hel hva hlast hts hrun
    obtain ⟨hm1, hm2, hH, hC, s, v, hget, hparse, hle, hrest⟩ := hrun
    obtain ⟨t, ht⟩ := Option.isSome_iff_exists.mp hts
    have hstep := processMutation_nonincreasing_step x.2.1 x.1 st x.2.2 pst
      lv t s v hcur (by rw [hm1]; exact hlook) (by rw [hel, hm1])
      (by rw [hm2, hva]) (by rw [hm1]; exact hH) (by rw [hm1]; exact hC)
      (by rw [hm1, hva]; exact hget) hparse hlast ht hle
    have hrs : runMutationSeq st (x :: xs)
        = runMutationSeq (processMutation x.2.1 x.1 st x.2.2).1 xs := rfl
    rw [hrs, hstep]
    refine ih l2 _
      { pst with lastValue := some (some v), lastValueTimestamp := some x.1 }
      v hcur ?_ hel hva rfl rfl hrest
    rw [hm1]
    exact lookup_setElementState st.progressElementState eid _
      (by rw [hlook]; rfl)

/-- C2: over any sequence of value-attribute mutations of an observed,
not-yet-locked progress element in which each newly parsed raw value is
less than or equal to the previously recorded last value, the observer
never locks in a playback-position element — after every prefix the lock
is still `none` — and each transition only re-baselines the element's
`(lastValue, lastValueTimestamp)` to the new value and the current
time. -/
theorem observer_nonincreasing_never_locks
    (st : ObserverState) (eid : ℕ) (pst : ProgressElementState) (lv : ℚ)
    (inputs l1 l2 : List (ℚ × Dom × MutationRecord))
    (hcur : st.currentPlaybackPositionProgressElement = none)
    (hlook : st.progressElementState.lookup eid = some pst)
    (hel : pst.progressElement.element = eid)
    (hlast : pst.lastValue = some (some lv))
    (hts : pst.lastValueTimestamp.isSome = true)
    (hsplit : inputs = l1 ++ l2)
    (hrun : NonIncreasingRun eid pst.progressElement.valueAttribute lv inputs) :
    (runMutationSeq st l1).currentPlaybackPositionProgressElement = none ∧
    ∀ x l2', l2 = x :: l2' →
      ∃ pst' v s,
        (runMutationSeq st l1).progressElementState.lookup eid = some pst' ∧
        x.2.1.getAttribute eid pst.progressElement.valueAttribute = some s ∧
        parseFloat s = some v ∧
        runMutationSeq st (l1 ++ [x]) =
          { runMutationSeq st l1 with
              progressElementState :=
                (setElementState (runMutationSeq st l1).progressElementState
                  eid
                  { pst' with lastValue := some (some v),
                              lastValueTimestamp := some x.1 }) } := by
  subst hsplit
  obtain ⟨hA, pst', lv', hlook', hpe', hlast', hts', hrun'⟩ :=
    nonincrRun_reach eid pst.progressElement.valueAttribute l1 l2 st pst lv
      hcur hlook hel rfl hlast hts hrun
  refine ⟨hA, ?_⟩
  intro x l2' hx
  subst hx
  obtain ⟨hm1, hm2, hH, hC, s, v, hget, hparse, hle, hrest⟩ := hrun'
  obtain ⟨t, ht⟩ := Option.isSome_iff_exists.mp hts'
  have hstep := processMutation_nonincreasing_step x.2.1 x.1
    (runMutationSeq st l1) x.2.2 pst' lv' t s v hA
    (by rw [hm1]; exact hlook')
    (by rw [hpe', hel, hm1])
    (by rw [hpe']; exact hm2)
    (by rw [hm1]; exact hH) (by rw [hm1]; exact hC)
    (by rw [hm1, hpe']; exact hget) hparse hlast' ht hle
  refine ⟨pst', v, s, hlook', hget, hparse, ?_⟩
  rw [runMutationSeq_append l1 [x] st]
  show (processMutation x.2.1 x.1 (runMutationSeq st l1) x.2.2).1 = _
  rw [hstep, hm1]

/-- Closed witness for `observer_nonincreasing_never_locks`: two
mutations with decreasing values 5, 3 below the recorded last value 10
leave the observer unlocked. -/
theorem observer_nonincreasing_never_locks_witness :
    (runMutationSeq
      ⟨[(0, ⟨⟨0, "min", "max", "value", .Milliseconds, .Milliseconds, none⟩,
          some (some 10), some 0⟩)], none⟩
      [(100, Dom.mk (fun _ => true) (fun _ => true)
          (fun i n => if i = 0 ∧ n = "value" then some "5" else none),
        ⟨some "value", 0⟩),
       (200, Dom.mk (fun _ => true) (fun _ => true)
          (fun i n => if i = 0 ∧ n = "value" then some "3" else none),
        ⟨some "value", 0⟩)]).currentPlaybackPositionProgressElement
      = none := by
  have h5 : parseFloat "5" = some 5 := by
    have h : natOfDigits ['5'] = 5 := by decide
    simp +decide [parseFloat, parseSign]
    norm_num [h, fracOfDigits, parseExponent, powTen, tenPow]
  have h3 : parseFloat "3" = some 3 := by
    have h : natOfDigits ['3'] = 3 := by decide
    simp +decide [parseFloat, parseSign]
    norm_num [h, fracOfDigits, parseExponent, powTen, tenPow]
  have hrun : NonIncreasingRun 0 "value" 10
      [((100 : ℚ), Dom.mk (fun _ => true) (fun _ => true)
          (fun i n => if i = 0 ∧ n = "value" then some "5" else none),
        (⟨some "value", 0⟩ : MutationRecord)),
       ((200 : ℚ), Dom.mk (fun _ => true) (fun _ => true)
          (fun i n => if i = 0 ∧ n = "value" then some "3" else none),
        (⟨some "value", 0⟩ : MutationRecord))] := by
    simp only [NonIncreasingRun]
    norm_num [h5, h3]
  exact (observer_nonincreasing_never_locks
    ⟨[(0, ⟨⟨0, "min", "max", "value", .Milliseconds, .Milliseconds, none⟩,
        some (some 10), some 0⟩)], none⟩
    0 ⟨⟨0, "min", "max", "value", .Milliseconds, .Milliseconds, none⟩,
        some (some 10), some 0⟩ 10
    _ _ [] rfl rfl rfl rfl rfl (by simp) hrun).1

/-- C1: the unit and lock-in decision for a not-yet-locked progress
element on a value-attribute mutation whose parsed value strictly exceeds
the recorded last value.  With `timeDelta = now - t` and
`positionDelta = v - lv`: when `positionDelta ≥ timeDelta / 2` the
element is classified as milliseconds and locked in as
`currentPlaybackPositionProgressElement` (with the per-element
`lastValue`/`lastValueTimestamp` cleared) exactly when
`|timeDelta - positionDelta| ≤ PROGRESS_MILLIS_EPSILON` (25 ms), and
otherwise only re-baselined to the new sample; when
`positionDelta < timeDelta / 2` the element's `valuePrecision` is set to
`Seconds`, the values and delta are rescaled by the unit multiplier 1000
(`v * 1000 - lv * 1000 = 1000 * positionDelta`), and lock-in happens
exactly when the rescaled difference is within
`PROGRESS_SECS_EPSILON` (250 ms), again re-baselining otherwise.  In
particular an element advancing by ~1000 per elapsed second is classified
as milliseconds, one advancing by ~1 per elapsed second as seconds. -/
theorem observer_lockin_decision (dom : Dom) (now : ℚ) (st : ObserverState)
    (m : MutationRecord) (pst : ProgressElementState)
    (lv t : ℚ) (s : String) (v : ℚ)
    (hcur : st.currentPlaybackPositionProgressElement = none)
    (hlook : st.progressElementState.lookup m.target = some pst)
    (hel : pst.progressElement.element = m.target)
    (hattr : m.attributeName = some pst.progressElement.valueAttribute)
    (hH : dom.isHTMLElement m.target = true)
    (hC : dom.contains m.target = true)
    (hget : dom.getAttribute m.target pst.progressElement.valueAttribute
      = some s)
    (hparse : parseFloat s = some v)
    (hlast : pst.lastValue = some (some lv))
    (hts : pst.lastValueTimestamp = some t)
    (hgt : lv < v)
    (hprec : pst.progressElement.valuePrecision
      = ProgressElementPrecision.Milliseconds)
    (htarget : pst.progressElement.targetPrecision
      = ProgressElementPrecision.Milliseconds) :
    ((now - t) / 2 ≤ v - lv →
      (|now - t - (v - lv)| ≤ PROGRESS_MILLIS_EPSILON →
        (processMutation dom now st m).1.currentPlaybackPositionProgressElement
          = some { pst.progressElement with
                     updateInterval := some (some (v - lv)) } ∧
        (processMutation dom now st m).1.progressElementState.lookup m.target
          = some ⟨{ pst.progressElement with
                      updateInterval := some (some (v - lv)) },
                  none, none⟩) ∧
      (¬|now - t - (v - lv)| ≤ PROGRESS_MILLIS_EPSILON →
        (processMutation dom now st m).1.currentPlaybackPositionProgressElement
          = none ∧
        (processMutation dom now st m).1.progressElementState.lookup m.target
          = some ⟨{ pst.progressElement with
                      updateInterval := some (some (v - lv)) },
                  some (some v), some now⟩)) ∧
    (¬((now - t) / 2 ≤ v - lv) →
      v * 1000 - lv * 1000 = 1000 * (v - lv) ∧
      (|now - t - (v * 1000 - lv * 1000)| ≤ PROGRESS_SECS_EPSILON →
        (processMutation dom now st m).1.currentPlaybackPositionProgressElement
          = some { pst.progressElement with
                     valuePrecision := ProgressElementPrecision.Seconds,
                     updateInterval :=
                       some (some ((v * 1000 - lv * 1000) * 1000)) } ∧
        (processMutation dom now st m).1.progressElementState.lookup m.target
          = some ⟨{ pst.progressElement with
                      valuePrecision := ProgressElementPrecision.Seconds,
                      updateInterval :=
                        some (some ((v * 1000 - lv * 1000) * 1000)) },
                  none, none⟩) ∧
      (¬|now - t - (v * 1000 - lv * 1000)| ≤ PROGRESS_SECS_EPSILON →
        (processMutation dom now st m).1.currentPlaybackPositionProgressElement
          = none ∧
        (processMutation dom now st m).1.progressElementState.lookup m.target
          = some ⟨{ pst.progressElement with
                      valuePrecision := ProgressElementPrecision.Seconds,
                      updateInterval :=
                        some (some ((v * 1000 - lv * 1000) * 1000)) },
                  some (some v), some now⟩)) := by
  have hnle : ¬(v ≤ lv) := not_le.mpr hgt
  unfold processMutation
  rw [hattr]
  simp only [hH, hC, hlook, hcur, hget, hparse, hlast, hts, hel,
    Bool.not_true, Bool.false_eq_true, if_false, ne_eq, not_true_eq_false,
    if_neg, jsLe]
  simp only [hnle, decide_eq_true_eq, if_false, decide_False]
  simp only [jsSub, jsBin, jsMulQ, jsAbs]
  refine ⟨fun hA => ?_, fun hA => ?_⟩
  · have hmillis : jsGe (some (v - lv)) (some ((now - t) / 2)) = true := by
      simp [jsGe]
      exact hA
    simp only [hmillis, if_true, hprec, Bool.false_eq_true, if_false]
    refine ⟨fun hB => ?_, fun hB => ?_⟩
    · simp [hB, hel, lookup_setElementState, hlook]
    · simp [hB, hel, lookup_setElementState, hlook]
  · have hmillis : jsGe (some (v - lv)) (some ((now - t) / 2)) = false := by
      simp [jsGe]
      exact lt_of_not_le hA
    simp only [hmillis, Bool.false_eq_true, if_false, hprec, htarget,
      ProgressElement.multiplier, ProgressElementPrecision.toNumber]
    refine ⟨by ring, fun hB => ?_, fun hB => ?_⟩
    · simp [hB, hel, lookup_setElementState, hlook]
    · simp [hB, hel, lookup_setElementState, hlook]

/-- Closed witness for `observer_lockin_decision`: the scenario of the
claim — an element advancing by 1000 while 1000 ms of wall-clock time
pass is classified as milliseconds and locked in. -/
theorem observer_lockin_decision_witness :
    (processMutation
      (Dom.mk (fun _ => true) (fun _ => true)
        (fun i n => if i = 0 ∧ n = "value" then some "2000" else none))
      1000
      ⟨[(0, ⟨⟨0, "min", "max", "value", .Milliseconds, .Milliseconds, none⟩,
          some (some 1000), some 0⟩)], none⟩
      ⟨some "value", 0⟩).1.currentPlaybackPositionProgressElement
      = some ⟨0, "min", "max", "value", .Milliseconds, .Milliseconds,
          some (some 1000)⟩ := by
  have h2000 : parseFloat "2000" = some 2000 := by
    have h : natOfDigits ['2', '0', '0', '0'] = 2000 := by decide
    simp +decide [parseFloat, parseSign]
    norm_num [h, fracOfDigits, parseExponent, powTen, tenPow]
  have h := observer_lockin_decision
    (Dom.mk (fun _ => true) (fun _ => true)
      (fun i n => if i = 0 ∧ n = "value" then some "2000" else none))
    1000
    ⟨[(0, ⟨⟨0, "min", "max", "value", .Milliseconds, .Milliseconds, none⟩,
        some (some 1000), some 0⟩)], none⟩
    ⟨some "value", 0⟩
    ⟨⟨0, "min", "max", "value", .Milliseconds, .Milliseconds, none⟩,
      some (some 1000), some 0⟩
    1000 0 "2000" 2000
    rfl rfl rfl rfl rfl rfl (by simp) h2000 rfl rfl (by norm_num) rfl rfl
  have hm := (h.1 (by norm_num)).1
    (by norm_num [PROGRESS_MILLIS_EPSILON])
  exact hm.1.trans (by norm_num)

end MediaControl
